import Mathlib

/-!
Verification development for the ReactFormGenerator repository.

The core under scrutiny is `src/components/EditForm.tsx`: the flat field-name
codec, the raw-form-value / upload merge passes, list pruning, the validation
rule engine, and the composite (Article / Showcase) checks, all of which live
in `handleSubmit` and `validateValue`.

JavaScript strings are modelled as `List Char` (abbreviation `Str`); JS
numbers appearing in the code (list indices, parsed prices) are modelled as
`Nat` / `Rat`, with `Option` capturing `undefined` / `NaN` where the code can
produce them.  JS objects (including arrays, which the code manipulates
through string-keyed property access and `Object.entries`) are modelled as
association lists with string keys.
-/

/-- JS strings are modelled as lists of characters. -/
abbrev Str := List Char

/-- Decimal digit test on a character (char codes 48-57), as used by the
numeric regexes and `parseInt` / `parseFloat` in the source. -/
def charToDigit? (c : Char) : Option Nat :=
  if 48 ≤ c.toNat ∧ c.toNat ≤ 57 then some (c.toNat - 48) else none

/-- Boolean digit test. -/
def isDigitB (c : Char) : Bool := (charToDigit? c).isSome

/-- The decimal digit character for a digit value `d < 10`. -/
def digitChar (d : Nat) : Char := Char.ofNat (48 + d)

/-- JS `String(n)` for a non-negative integer: decimal notation, used by the
render code when building `attribute + "_listfieldsingleidx_" + i` and
`attribute + "_listfieldidx_" + i + "_0"` input names. -/
def natToStr (n : Nat) : Str :=
  if n = 0 then [digitChar 0] else (Nat.digits 10 n).reverse.map digitChar

/-- Longest prefix of decimal digits of a string, as digit values. -/
def leadingDigits : Str → List Nat
  | [] => []
  | c :: t =>
    match charToDigit? c with
    | some d => d :: leadingDigits t
    | none => []

/-- Value of a big-endian digit list. -/
def digitsVal (ds : List Nat) : Nat := ds.foldl (fun a d => 10 * a + d) 0

/-- JS `parseInt(x, 10)` restricted to the shapes arising in the source: the
argument is a string (or `undefined`, modelled as `none`, when the code reads
past the end of a `split` result).  `parseInt` parses the longest leading run
of decimal digits and yields `NaN` (modelled `none`) when there is none or the
argument is `undefined`. -/
def parseIntJS : Option Str → Option Nat
  | none => none
  | some s =>
    match leadingDigits s with
    | [] => none
    | ds => some (digitsVal ds)

/-- JS `parseFloat` restricted to inputs of shape `\d*\.?\d*` (the only shape
reaching it in `validateValue`): `NaN` (`none`) when no digit is present at
all, otherwise the exact rational value. -/
def parseFloatJS (s : Str) : Option Rat :=
  let ip := s.takeWhile isDigitB
  let rest := s.dropWhile isDigitB
  let fp := match rest with
    | c :: t => if c = '.' then t.takeWhile isDigitB else []
    | [] => []
  if ip.isEmpty && fp.isEmpty then none
  else some (mkRat
    (digitsVal (ip.map (fun c => c.toNat - 48)) * 10 ^ fp.length
      + digitsVal (fp.map (fun c => c.toNat - 48)))
    (10 ^ fp.length))

/-- Structural prefix test on character lists. -/
def isPrefixOfL : Str → Str → Bool
  | [], _ => true
  | _ :: _, [] => false
  | a :: as, b :: bs => decide (a = b) && isPrefixOfL as bs

/-- JS `haystack.includes(needle)`: substring occurrence test. -/
def strIncludes (needle : Str) : Str → Bool
  | [] => needle.isEmpty
  | c :: t => isPrefixOfL needle (c :: t) || strIncludes needle t

/-- JS `s.split(sep)` for a one-character separator.  `"".split(sep) = [""]`;
every separator occurrence produces a boundary. -/
def splitOnC (sep : Char) : Str → List Str
  | [] => [[]]
  | c :: t =>
    if c = sep then [] :: splitOnC sep t
    else
      match splitOnC sep t with
      | [] => [[c]]
      | h :: r => (c :: h) :: r

/-- JS `parts.join(sep)` for a one-character separator. -/
def joinC (sep : Char) : List Str → Str
  | [] => []
  | [x] => x
  | x :: xs => x ++ sep :: joinC sep xs

/-- `name.split("_")` as used throughout `handleSubmit`. -/
def splitU : Str → List Str := splitOnC '_'

/-- `parts.join("_")` as used throughout `handleSubmit`. -/
def joinU : List Str → Str := joinC '_'

/-- `name.split("_")[0]`: the first underscore-delimited token. -/
def headTok (name : Str) : Str := (splitU name).headI

/-- `name.split("_").slice(1).join("_")`: everything after the first
underscore. -/
def tailTok (name : Str) : Str := joinU ((splitU name).drop 1)

/-- The literal token `"listfieldidx_"` (DoubleTextList row names). -/
def lfiTok : Str := ("listfieldidx_").data

/-- The literal token `"listfieldsingleidx_"` (TextList row names). -/
def lfsiTok : Str := ("listfieldsingleidx_").data

-- Basic lemmas about the string machinery.

/-- An entity path as produced by the encoder: attribute, optional subfield,
optional list index, optional paired sub-index. -/
inductive EncPath where
  | attr (a : Str)
  | sub (a : Str) (s : Str)
  | listSingle (a : Str) (i : Nat)
  | listPair (a : Str) (i : Nat) (p : Nat)
deriving DecidableEq

/-- The flat input name the render code generates for a path. -/
def encodePath : EncPath → Str
  | .attr a => a
  | .sub a s => a ++ '_' :: s
  | .listSingle a i => a ++ '_' :: (lfsiTok ++ natToStr i)
  | .listPair a i p => a ++ '_' :: (lfiTok ++ natToStr i ++ '_' :: natToStr p)

/-- A path as recovered by the `handleSubmit` splitting logic.  The list
index is `Option Nat` because the code stores `parseInt`'s result, which can
be `NaN` (`none`); the paired sub-index is kept as the raw string key, which
is how the code uses it (`entity[field][idx][subsub] = value`). -/
inductive FieldPath where
  | whole (a : Str)
  | subf (a : Str) (s : Str)
  | listSingle (a : Str) (idx : Option Nat)
  | listPair (a : Str) (idx : Option Nat) (subsub : Str)
deriving DecidableEq

/-- The attribute component of a decoded path. -/
def FieldPath.attrOf : FieldPath → Str
  | .whole a => a
  | .subf a _ => a
  | .listSingle a _ => a
  | .listPair a _ _ => a

/-- The name-splitting logic of `handleSubmit` (lines 295-333), as a pure
decoder: which entity path a flat input name is routed to, given the set of
declared attributes (`updateTargets`).  `none` means the name is ignored. -/
def decodeName (known : List Str) (name : Str) : Option FieldPath :=
  if name ∈ known then some (.whole name)
  else if strIncludes ['_'] name = true ∧ headTok name ∈ known then
    if strIncludes lfiTok (tailTok name) then
      some (.listPair (headTok name) (parseIntJS ((splitU (tailTok name)).get? 1))
        (joinU ((splitU (tailTok name)).drop 2)))
    else if strIncludes lfsiTok (tailTok name) then
      some (.listSingle (headTok name) (parseIntJS ((splitU (tailTok name)).get? 1)))
    else some (.subf (headTok name) (tailTok name))
  else none

/-- The decoded form of an encoder path (injection of `Path` into
`FieldPath`: a parsed index becomes `some i`, a paired sub-index becomes its
decimal string, which is what the code uses as the nested key). -/
def pathToDecoded : EncPath → FieldPath
  | .attr a => .whole a
  | .sub a s => .subf a s
  | .listSingle a i => .listSingle a (some i)
  | .listPair a i p => .listPair a (some i) (natToStr p)

/-- The attribute token of an encoder path. -/
def EncPath.attrOf : EncPath → Str
  | .attr a => a
  | .sub a _ => a
  | .listSingle a _ => a
  | .listPair a _ _ => a

/-- The subfield token of an encoder path is underscore-free (trivially true
for the other path forms). -/
def EncPath.subNoUnderscore : EncPath → Prop
  | .sub _ s => '_' ∉ s
  | _ => True

-- Supporting lemmas for the round trip.

/-- A JS value as manipulated by `handleSubmit`. -/
inductive JSVal where
  | vStr (s : Str)
  | vBool (b : Bool)
  | vNum (q : Rat)
  | vObj (fields : List (Str × JSVal))

/-- A JS object: ordered key/value pairs with distinct keys. -/
abbrev Obj := List (Str × JSVal)

/-- Property lookup (`o[k]`, `undefined` = `none`). -/
def lookupObj : Obj → Str → Option JSVal
  | [], _ => none
  | (k2, v) :: t, k => if k2 = k then some v else lookupObj t k

/-- Property assignment (`o[k] = v`): overwrite in place, else append. -/
def setKey : Obj → Str → JSVal → Obj
  | [], k, v => [(k, v)]
  | (k2, v2) :: t, k, v => if k2 = k then (k, v) :: t else (k2, v2) :: setKey t k v

/-- JS truthiness of a possibly-`undefined` value. -/
def truthy : Option JSVal → Bool
  | none => false
  | some (.vStr s) => !s.isEmpty
  | some (.vBool b) => b
  | some (.vNum q) => decide (q ≠ 0)
  | some (.vObj _) => true

/-- Property read on a defined value (`v[k]`): key lookup on objects,
`undefined` on primitives (which box to objects without such keys). -/
def propRead1 : JSVal → Str → Option JSVal
  | .vObj fields, k => lookupObj fields k
  | _, _ => none

/-- Two-level read `o[k1][k2]`, `undefined` when the inner step fails. -/
def lookup2 (o : Obj) (k1 k2 : Str) : Option JSVal :=
  match lookupObj o k1 with
  | some (.vObj fields) => lookupObj fields k2
  | _ => none

/-- Two-level write `o[f][k] = v` (no-op when `o[f]` is not an object:
no claim exercises property assignment on primitives). -/
def writeAt2 (ent : Obj) (f k : Str) (v : JSVal) : Obj :=
  match lookupObj ent f with
  | some (.vObj inner) => setKey ent f (.vObj (setKey inner k v))
  | _ => ent

/-- Three-level write `o[f][k][s] = v`. -/
def writeAt3 (ent : Obj) (f k s : Str) (v : JSVal) : Obj :=
  match lookupObj ent f with
  | some (.vObj inner) =>
    match lookupObj inner k with
    | some (.vObj inner2) =>
      setKey ent f (.vObj (setKey inner k (.vObj (setKey inner2 s v))))
    | _ => ent
  | _ => ent

/-- `if (!entity[f]) entity[f] = init;` -/
def ensureField (ent : Obj) (f : Str) (init : JSVal) : Obj :=
  if truthy (lookupObj ent f) then ent else setKey ent f init

/-- A JS array value, as the string-keyed object the code treats it as. -/
def mkArrObj (vs : List JSVal) : JSVal :=
  .vObj (vs.enum.map (fun p => (natToStr p.1, p.2)))

/-!
The descriptor and validation data model (`EditEntryType`, `ValidationType`,
`EditEntry` from `EditForm.tsx` lines 9-70).
-/

inductive EditEntryType where
  | Text | TextList | DoubleTextList | TextArea | File | Address | Photo
  | ProfilePhoto | FilePhoto | Radio | Checkbox | Article | Date | Select
  | Showcase | PillList
deriving DecidableEq

inductive ValidationType where
  | Email | PhoneNumber | UserName | CheckboxChecked | RequiredField
  | TextLengthBelow30 | TextLengthBelow50 | TextLengthBelow100
  | TextLengthBelow200 | TextLengthBelow300 | TextLengthBelow400
  | Number | Price
deriving DecidableEq

/-- The `extraParam` shape consulted by the Showcase logic:
`isInstagramShowcase` / `maxPhotos`, each possibly absent. -/
structure ExtraParam where
  isInstagramShowcase : Option Bool
  maxPhotos : Option Nat
deriving DecidableEq

/-- A form field descriptor (`EditEntry`), restricted to the fields the
submit path reads (plus `condition`, which only the render path reads).
The source's `attribute` field is named `attr` here (`attribute` is a Lean
keyword). -/
structure EditEntry where
  attr : Str
  attributeName : Str
  type : EditEntryType
  isRequired : Bool
  validations : Option (List ValidationType)
  extraParam : Option ExtraParam
  condition : Option Bool
deriving DecidableEq

/-!
The validation rule engine (`validateValue`, lines 90-215).  The source
returns a boolean and reports failures through `toast.error`; we model a
failing rule as `some message` and a passing one as `none`.
-/

/-- JS whitespace, restricted to the ASCII white space characters. -/
def isWsB (c : Char) : Bool :=
  decide (c = ' ') || decide (c = '\n') || decide (c = '\t') || decide (c = '\r')

/-- A character the `\S` class accepts. -/
def nonspaceB (c : Char) : Bool := !(isWsB c)

/-- The unanchored test `/\S+@\S+\.\S+/.test(s)`: some `'@'` at `p` and
`'.'` at `q > p + 1` with non-space characters immediately before `p`,
strictly between `p` and `q`, and immediately after `q`. -/
def emailTest (s : Str) : Bool :=
  (List.range s.length).any fun p =>
    (List.range s.length).any fun q =>
      decide (1 ≤ p) && decide (p + 2 ≤ q) && decide (q + 1 < s.length)
      && decide (s.get? p = some '@') && decide (s.get? q = some '.')
      && (match s.get? (p - 1) with | some c => nonspaceB c | none => false)
      && (match s.get? (q + 1) with | some c => nonspaceB c | none => false)
      && ((List.range (q - p - 1)).all fun j =>
            match s.get? (p + 1 + j) with | some c => nonspaceB c | none => false)

/-- The anchored test `/^\d*\.?\d*$/.test(s)`. -/
def numPattern (s : Str) : Bool :=
  match s.dropWhile isDigitB with
  | [] => true
  | c :: t => decide (c = '.') && t.all isDigitB

/-- A character the `/^[a-z0-9_]+$/` class accepts. -/
def userNameChar (c : Char) : Bool :=
  (decide (97 ≤ c.toNat) && decide (c.toNat ≤ 122)) || isDigitB c || decide (c = '_')

/-- The anchored test `/^[a-z0-9_]+$/.test(s)`. -/
def userNamePat (s : Str) : Bool := !s.isEmpty && s.all userNameChar

def emailMsg (n : Str) : Str :=
  ("Error for \"").data ++ n ++ ("\"\n\nEmail format is invalid.").data

def phoneMsg (n : Str) : Str :=
  ("Error for \"").data ++ n ++ ("\"\n\nPhone number format is invalid.").data

def userNameTypeMsg : Str := ("Invalid User name").data

def userNamePatMsg : Str :=
  ("User name can only contain \"a~z\", number and \"_\".").data

def checkboxRuleMsg (n : Str) : Str :=
  ("Error for \"").data ++ n ++ ("\"\n\nPlease check the box.").data

def requiredRuleMsg (n : Str) : Str := n ++ (" is required!").data

def lengthMsg (n : Str) (limit : Nat) : Str :=
  ("Error for \"").data ++ n ++ ("\"\n\nNeeds to be shorter than ").data
    ++ natToStr limit ++ (" characters").data

def priceInvalidMsg (n : Str) : Str :=
  n ++ (" is invalid. Please enter a valid number with only digits or a decimal.").data

def priceRangeMsg (n : Str) : Str :=
  ("Error for \"").data ++ n ++ ("\"\n\nPlease enter a number between 0-9999").data

def numberInvalidMsg (n : Str) : Str :=
  n ++ (" is invalid. Please enter a valid number").data

def numberRangeMsg (n : Str) : Str :=
  ("Error for \"").data ++ n ++ ("\"\n\nPlease enter a number between 0-999").data

/-- The shared body of the `TextLengthBelowN` cases. -/
def lengthRule (value : Option JSVal) (attributeName : Str) (limit : Nat) : Option Str :=
  if !truthy value then none
  else match value with
    | some (.vStr s) =>
      if s.length > limit then some (lengthMsg attributeName limit) else none
    | _ => none

/-- `validateValue(value, attributeName, validationType)` (lines 90-215):
`none` = the rule passes (`return true`), `some msg` = the rule fails after
reporting `msg`. -/
def validateValue (value : Option JSVal) (attributeName : Str) :
    ValidationType → Option Str
  | .Email =>
    match value with
    | some (.vStr s) =>
      if s.length > 100 || !emailTest s then some (emailMsg attributeName) else none
    | _ => none
  | .PhoneNumber =>
    match value with
    | some (.vStr s) =>
      if !s.isEmpty then
        if (s.filter isDigitB).isEmpty
            || !(decide ((s.filter isDigitB).length = 10)
              || decide ((s.filter isDigitB).length = 11)) then
          some (phoneMsg attributeName)
        else none
      else none
    | _ => none
  | .UserName =>
    match value with
    | some (.vStr s) => if !userNamePat s then some userNamePatMsg else none
    | _ => some userNameTypeMsg
  | .CheckboxChecked =>
    if !truthy value then some (checkboxRuleMsg attributeName) else none
  | .RequiredField =>
    if !truthy value
        || (match value with | some (.vStr s) => s.all isWsB | _ => false) then
      some (requiredRuleMsg attributeName)
    else none
  | .TextLengthBelow30 => lengthRule value attributeName 30
  | .TextLengthBelow50 => lengthRule value attributeName 50
  | .TextLengthBelow100 => lengthRule value attributeName 100
  | .TextLengthBelow200 => lengthRule value attributeName 200
  | .TextLengthBelow300 => lengthRule value attributeName 300
  | .TextLengthBelow400 => lengthRule value attributeName 400
  | .Price =>
    match value with
    | some (.vStr s) =>
      if !s.isEmpty then
        if s.length > 100 || !numPattern s then some (priceInvalidMsg attributeName)
        else if (match (splitOnC '.' s).get? 1 with
            | some p1 => !p1.isEmpty && decide (p1.length > 2)
            | none => false) then some (priceInvalidMsg attributeName)
        else match parseFloatJS s with
          | none => none
          | some q =>
            if q ≤ 0 ∨ q > 9999 then some (priceRangeMsg attributeName) else none
      else none
    | _ => none
  | .Number =>
    match value with
    | some (.vStr s) =>
      if !s.isEmpty then
        if s.length > 10 || !numPattern s then some (numberInvalidMsg attributeName)
        else match parseIntJS (some s) with
          | none => none
          | some n =>
            if n = 0 ∨ n > 999 then some (numberRangeMsg attributeName) else none
      else none
    | _ => none

/-!
The submission pipeline (`handleSubmit`, lines 278-468).
-/

/-- A form control as visited by the form-element loop: its `name`, its
string `value`, and whether it is a radio input that is currently unchecked
(the loop skips those in the exact-name branch). -/
structure FormInput where
  name : Str
  value : Str
  isUncheckedRadio : Bool
deriving DecidableEq

/-- The component state `handleSubmit` closes over: `updateTargets` (as the
ordered attribute list; only membership is used), `listFieldSize`, and the
single shared `checkboxFieldValue`. -/
structure SubmitCtx where
  attrs : List Str
  listFieldSize : List Nat
  checkboxFieldValue : Bool
deriving DecidableEq

/-- `Object.fromEntries(editEntries.map((e, i) => [e.attribute, i]))[a]`:
index of the last occurrence of `a` (later duplicate keys overwrite earlier
ones in `fromEntries`), `none` when `a` is not a declared attribute. -/
def lastIdx : List Str → Str → Option Nat
  | [], _ => none
  | b :: t, a =>
    match lastIdx t a with
    | some i => some (i + 1)
    | none => if b = a then some 0 else none

/-- `listFieldSize[editEntryIdx[a]]` (`none` = `undefined`). -/
def listSizeAt (ctx : SubmitCtx) (a : Str) : Option Nat :=
  match lastIdx ctx.attrs a with
  | some i => ctx.listFieldSize.get? i
  | none => none

/-- JS `x >= y` where either side may be `NaN` or `undefined` (`none`):
such comparisons are `false`. -/
def geJS : Option Nat → Option Nat → Bool
  | some x, some y => decide (x ≥ y)
  | _, _ => false

/-- The object key used for `entity[field][entity_curr_idx]`: the decimal
index, or the literal key `"NaN"` when `parseInt` produced `NaN`. -/
def idxKey : Option Nat → Str
  | some i => natToStr i
  | none => ("NaN").data

/-- One iteration of the form-element loop (lines 291-335): route one named
control value into the working entity. -/
def applyRawInput (ctx : SubmitCtx) (ent : Obj) (inp : FormInput) : Obj :=
  if inp.name.isEmpty then ent
  else if inp.name ∈ ctx.attrs then
    if inp.isUncheckedRadio then ent
    else setKey ent inp.name (.vStr inp.value)
  else if strIncludes ['_'] inp.name = true ∧ headTok inp.name ∈ ctx.attrs then
    if strIncludes lfiTok (tailTok inp.name) then
      if geJS (parseIntJS ((splitU (tailTok inp.name)).get? 1))
          (listSizeAt ctx (headTok inp.name)) then ent
      else
        writeAt3
          (let ent1 := ensureField ent (headTok inp.name) (.vObj [])
           if truthy (lookup2 ent1 (headTok inp.name)
               (idxKey (parseIntJS ((splitU (tailTok inp.name)).get? 1)))) then ent1
           else writeAt2 ent1 (headTok inp.name)
             (idxKey (parseIntJS ((splitU (tailTok inp.name)).get? 1))) (.vObj []))
          (headTok inp.name)
          (idxKey (parseIntJS ((splitU (tailTok inp.name)).get? 1)))
          (joinU ((splitU (tailTok inp.name)).drop 2))
          (.vStr inp.value)
    else if strIncludes lfsiTok (tailTok inp.name) then
      if geJS (parseIntJS ((splitU (tailTok inp.name)).get? 1))
          (some ((listSizeAt ctx (headTok inp.name)).getD 0)) then ent
      else
        writeAt2
          (let ent1 := ensureField ent (headTok inp.name) (.vObj [])
           if truthy (lookup2 ent1 (headTok inp.name)
               (idxKey (parseIntJS ((splitU (tailTok inp.name)).get? 1)))) then ent1
           else writeAt2 ent1 (headTok inp.name)
             (idxKey (parseIntJS ((splitU (tailTok inp.name)).get? 1))) (.vObj []))
          (headTok inp.name)
          (idxKey (parseIntJS ((splitU (tailTok inp.name)).get? 1)))
          (.vStr inp.value)
    else
      if strIncludes ['\n'] inp.value
          || (decide (tailTok inp.name = ("content").data) && !inp.value.isEmpty) then
        writeAt2 (ensureField ent (headTok inp.name) (.vObj []))
          (headTok inp.name) (tailTok inp.name)
          (mkArrObj (((splitOnC '\n' inp.value).filter (fun e => !e.isEmpty)).map .vStr))
      else
        writeAt2 (ensureField ent (headTok inp.name) (.vObj []))
          (headTok inp.name) (tailTok inp.name) (.vStr inp.value)
  else ent

/-- One iteration of the `uploadPhotoMap` merge loop (lines 337-346).  Note
the absence of the `listfieldidx_` / `listfieldsingleidx_` branches and the
newline-splitting transform: every suffix is written as a plain subfield. -/
def applyUploadPair (ctx : SubmitCtx) (ent : Obj) (pr : Str × Str) : Obj :=
  if pr.1 ∈ ctx.attrs then setKey ent pr.1 (.vStr pr.2)
  else if strIncludes ['_'] pr.1 = true ∧ headTok pr.1 ∈ ctx.attrs then
    writeAt2 (ensureField ent (headTok pr.1) (.vObj []))
      (headTok pr.1) (tailTok pr.1) (.vStr pr.2)
  else ent

/-- Outcome of processing one descriptor inside the submit loop: updated
entity, abort with an error toast, or a thrown TypeError (the code reads
properties of `entity[attribute]` without guarding against `undefined`). -/
inductive EntryStep where
  | ok (ent : Obj)
  | error (msg : Str)
  | thrown

/-- Result of a whole submission attempt: abort with one error message,
a thrown TypeError, or reaching the `onSubmitSuccess` scheduling with the
final entity. -/
inductive SubmitResult where
  | error (msg : Str)
  | thrown
  | success (ent : Obj)

def requiredSubmitMsg (n : Str) : Str :=
  ("Field is required: \"").data ++ n ++ ("\"").data

def articleMsg (n : Str) : Str :=
  ("Title, Content, and Photo are required for ").data ++ n ++ (".").data

def maxPhotosMsg (n : Str) (maxP : Nat) : Str :=
  ("Please make sure the ").data ++ n ++ (" section has no more than ").data
    ++ natToStr maxP ++ (" photos.").data

def showcaseMsg (n : Str) (isIG : Bool) : Str :=
  ("Title").data
    ++ (if isIG then (", Handle, Profile URL, Profile Photo,").data else [])
    ++ (" and Images are required for ").data ++ n ++ (".").data

/-- The `editEntry.validations` loop (lines 400-406): message of the first
failing rule in declaration order, `none` when all rules pass. -/
def runValidations (value : Option JSVal) (attributeName : Str) :
    List ValidationType → Option Str
  | [] => none
  | r :: rs =>
    match validateValue value attributeName r with
    | some m => some m
    | none => runValidations value attributeName rs

/-- The Article completeness check (lines 359-380).  Reading
`article["title"]` throws when `entity[attribute]` is `undefined`. -/
def articleStep (e : EditEntry) (ent : Obj) : EntryStep :=
  if e.type = EditEntryType.Article then
    match lookupObj ent e.attr with
    | none => .thrown
    | some article =>
      if ([propRead1 article (("title").data), propRead1 article (("content").data),
            propRead1 article (("image_url").data), propRead1 article (("subtitle").data),
            propRead1 article (("button_link").data)].filter truthy).length > 0
          ∧ ([propRead1 article (("title").data), propRead1 article (("content").data),
            propRead1 article (("image_url").data)].filter truthy).length < 3 then
        .error (articleMsg e.attributeName)
      else if !truthy (propRead1 article (("title").data))
          && !truthy (propRead1 article (("content").data)) then
        .ok (setKey ent e.attr (.vObj []))
      else .ok ent
  else .ok ent

/-- The filter predicate of the pruning step:
`v && typeof v === 'object' && "0" in v && "1" in v`. -/
def isPairObj : JSVal → Bool
  | .vObj fs => (lookupObj fs (("0").data)).isSome && (lookupObj fs (("1").data)).isSome
  | _ => false

/-- The list pruning step (lines 382-398).  `max_idx_to_take > 0` is false
when the size is `undefined`, hence the `getD 0`.  Note that the filter
demands an object with both paired keys `"0"` and `"1"` from EVERY entry of
EVERY list-typed descriptor, not only for `DoubleTextList`. -/
def pruneStep (ctx : SubmitCtx) (e : EditEntry) (ent : Obj) : Obj :=
  if (listSizeAt ctx e.attr).getD 0 > 0 then
    match lookupObj (match lookupObj ent e.attr with
        | some (.vObj _) => ent
        | _ => setKey ent e.attr (.vObj [])) e.attr with
    | some (.vObj fields) =>
      setKey (match lookupObj ent e.attr with
          | some (.vObj _) => ent
          | _ => setKey ent e.attr (.vObj [])) e.attr
        (.vObj (fields.filter (fun kv =>
          match parseIntJS (some kv.1) with
          | none => false
          | some idx => decide (idx < (listSizeAt ctx e.attr).getD 0) && isPairObj kv.2)))
    | _ => (match lookupObj ent e.attr with
        | some (.vObj _) => ent
        | _ => setKey ent e.attr (.vObj []))
  else ent

/-- `Boolean(editEntry.extraParam.isInstagramShowcase)` guarded by the
presence checks (lines 412-414). -/
def showcaseIsIG (e : EditEntry) : Bool :=
  match e.extraParam with
  | some p => p.isInstagramShowcase.getD false
  | none => false

/-- `Number(editEntry.extraParam.maxPhotos)` guarded by the presence checks
(lines 418-420), `0` when absent. -/
def showcaseMaxPhotos (e : EditEntry) : Nat :=
  match e.extraParam with
  | some p => p.maxPhotos.getD 0
  | none => 0

/-- `numPhotos` (lines 423-433): the count of `image_urls` entries that are
objects carrying a `state` key other than `"deleted"`. -/
def showcaseNumPhotos (e : EditEntry) (ent : Obj) : Nat :=
  match lookupObj ent e.attr with
  | some (.vObj fs) =>
    match lookupObj fs (("image_urls").data) with
    | some (.vObj arr) =>
      ((arr.map Prod.snd).filter (fun im =>
        match im with
        | .vObj imf =>
          match lookupObj imf (("state").data) with
          | some (.vStr s) => !(decide (s = ("deleted").data))
          | some _ => true
          | none => false
        | _ => false)).length
    | _ => 0
  | _ => 0

/-- `filledCount` (lines 439-447). -/
def showcaseFilled (e : EditEntry) (ent : Obj) (showcase : JSVal) : Nat :=
  (([truthy (propRead1 showcase (("title").data)),
    decide (showcaseNumPhotos e ent > 0)].filter (fun b => b)).length)
  + (if showcaseIsIG e then
      (([truthy (propRead1 showcase (("handle").data)),
        truthy (propRead1 showcase (("url").data)),
        truthy (propRead1 showcase (("profile_photo_url").data))].filter
          (fun b => b)).length)
    else 0)

/-- The Showcase completeness check (lines 408-453).  Reading
`showcase["title"]` throws when `entity[attribute]` is `undefined`. -/
def showcaseStep (e : EditEntry) (ent : Obj) : EntryStep :=
  if e.type = EditEntryType.Showcase then
    if showcaseMaxPhotos e ≠ 0 ∧ showcaseNumPhotos e ent > showcaseMaxPhotos e then
      .error (maxPhotosMsg e.attributeName (showcaseMaxPhotos e))
    else match lookupObj ent e.attr with
      | none => .thrown
      | some showcase =>
        if 0 < showcaseFilled e ent showcase
            ∧ showcaseFilled e ent showcase < (if showcaseIsIG e then 5 else 2) then
          .error (showcaseMsg e.attributeName (showcaseIsIG e))
        else .ok ent
  else .ok ent

/-- The tail of one submit-loop iteration, after the required check, the
checkbox overwrite and the Article check: list pruning (lines 382-398), the
declared validations (lines 400-406), then the Showcase check. -/
def processEntryTail (ctx : SubmitCtx) (e : EditEntry) (ent2 : Obj) : EntryStep :=
  match runValidations (lookupObj (pruneStep ctx e ent2) e.attr) e.attributeName
      (e.validations.getD []) with
  | some m => .error m
  | none => showcaseStep e (pruneStep ctx e ent2)

/-- One iteration of the per-descriptor submit loop (lines 348-454):
required check, checkbox finalize overwrite, Article check, list pruning,
declared validations, Showcase check — in this order. -/
def processEntry (ctx : SubmitCtx) (e : EditEntry) (ent : Obj) : EntryStep :=
  if e.isRequired && !truthy (lookupObj ent e.attr) then
    .error (requiredSubmitMsg e.attributeName)
  else
    match articleStep e (if e.type = EditEntryType.Checkbox then
        setKey ent e.attr (.vBool ctx.checkboxFieldValue)
      else ent) with
    | .error m => .error m
    | .thrown => .thrown
    | .ok ent2 => processEntryTail ctx e ent2

/-- The per-descriptor loop (lines 348-454): abort at the first failing
entry, otherwise fall through to the success path with the final entity. -/
def processLoop (ctx : SubmitCtx) : List EditEntry → Obj → SubmitResult
  | [], ent => .success ent
  | e :: rest, ent =>
    match processEntry ctx e ent with
    | .error m => .error m
    | .thrown => .thrown
    | .ok ent2 => processLoop ctx rest ent2

/-- `updateTargets` (line 283), as the ordered attribute list. -/
def updateTargets (entries : List EditEntry) : List Str := entries.map EditEntry.attr

/-- The whole `handleSubmit` (lines 278-468): fold the named form controls
into the working entity, then the upload map (upload results are applied
after all raw form values), then run the per-descriptor loop. -/
def handleSubmit (entries : List EditEntry) (listFieldSize : List Nat)
    (checkboxFieldValue : Bool) (inputs : List FormInput)
    (uploadPhotoMap : List (Str × Str)) (entity0 : Obj) : SubmitResult :=
  processLoop ⟨updateTargets entries, listFieldSize, checkboxFieldValue⟩ entries
    (uploadPhotoMap.foldl
      (applyUploadPair ⟨updateTargets entries, listFieldSize, checkboxFieldValue⟩)
      (inputs.foldl
        (applyRawInput ⟨updateTargets entries, listFieldSize, checkboxFieldValue⟩)
        entity0))

/-!
The submission tail (lines 456-467):

```
if (props.onSubmitSuccess) {
  try {
    setTimeout(() => {
      props.onSubmitSuccess(entity);
      hideLoading();
      toast.success("Successfully submitted!");
    }, 1000);
  } catch (error) {
    hideLoading();
    console.log(error);
  }
}
```

`setTimeout` only registers the callback (it cannot throw here) and the
callback body later runs from the event loop, outside the `try`.  We model
the two phases explicitly: the synchronous phase evaluates the `try/catch`
around the registration; the deferred phase runs the callback unprotected,
so an exception thrown by the success handler escapes to the host uncaught.
-/

/-- Observable events of the submission tail. -/
inductive TailEvent where
  | timerRegistered | handlerInvoked | loadingCleared | successToasted | exceptionLogged
deriving DecidableEq

/-- The `try` block: registering the deferred callback.  Registration
returns a timer id and cannot throw (`Except.error` would model a throw). -/
def registerTimer : Except Unit TailEvent := .ok .timerRegistered

/-- The synchronous phase: the `try/catch`.  The `catch` clause
(`hideLoading(); console.log(error)`) runs only if registration threw. -/
def syncPhase : List TailEvent :=
  match registerTimer with
  | .ok ev => [ev]
  | .error _ => [.loadingCleared, .exceptionLogged]

/-- The deferred callback, run later by the event loop outside any `try`:
invoke the handler; if it throws, the rest of the callback is skipped and
the exception is uncaught (second component `true`). -/
def runCallback (handlerThrows : Bool) : List TailEvent × Bool :=
  if handlerThrows then ([.handlerInvoked], true)
  else ([.handlerInvoked, .loadingCleared, .successToasted], false)

/-- The whole submission tail: events in order, and whether an exception
escaped uncaught. -/
def submitTail (handlerThrows : Bool) : List TailEvent × Bool :=
  (syncPhase ++ (runCallback handlerThrows).1, (runCallback handlerThrows).2)

theorem splitOnC_ne_nil (sep : Char) (s : Str) : splitOnC sep s ≠ [] := by
  induction s with
  | nil => simp [splitOnC]
  | cons c t ih =>
    simp only [splitOnC]
    split
    · simp
    · cases h : splitOnC sep t with
      | nil => simp
      | cons a r => simp

theorem joinC_splitOnC (sep : Char) (s : Str) : joinC sep (splitOnC sep s) = s := by
  induction s with
  | nil => simp [splitOnC, joinC]
  | cons c t ih =>
    simp only [splitOnC]
    split
    · rename_i hc
      subst hc
      cases h : splitOnC c t with
      | nil => exact absurd h (splitOnC_ne_nil c t)
      | cons a r =>
        rw [h] at ih
        simp only [joinC]
        cases r with
        | nil => simp only [joinC] at ih ⊢; simp [ih]
        | cons b r2 => simp only [joinC] at ih ⊢; simp [ih]
    · cases h : splitOnC sep t with
      | nil => exact absurd h (splitOnC_ne_nil sep t)
      | cons a r =>
        rw [h] at ih
        cases r with
        | nil => simp only [joinC] at ih ⊢; simp [ih]
        | cons b r2 =>
          simp only [joinC] at ih ⊢
          simp [ih]

theorem splitOnC_no_sep (sep : Char) (s : Str) (h : sep ∉ s) :
    splitOnC sep s = [s] := by
  induction s with
  | nil => rfl
  | cons c t ih =>
    simp only [List.mem_cons, not_or] at h
    simp only [splitOnC]
    rw [if_neg (fun hc => h.1 (by rw [hc]))]
    rw [ih h.2]

theorem splitOnC_append_cons (sep : Char) (a rest : Str) (h : sep ∉ a) :
    splitOnC sep (a ++ sep :: rest) = a :: splitOnC sep rest := by
  induction a with
  | nil => simp [splitOnC]
  | cons c t ih =>
    simp only [List.mem_cons, not_or] at h
    simp only [List.cons_append, splitOnC]
    rw [if_neg (fun hc => h.1 (by rw [hc]))]
    simp only [List.append_eq]
    rw [ih h.2]

theorem mem_of_isPrefixOfL {n h : Str} (hp : isPrefixOfL n h = true) :
    ∀ c ∈ n, c ∈ h := by
  induction n generalizing h with
  | nil => intro c hc; exact absurd hc (List.not_mem_nil c)
  | cons a as ih =>
    cases h with
    | nil => exact absurd hp (by simp [isPrefixOfL])
    | cons b bs =>
      simp only [isPrefixOfL, Bool.and_eq_true, decide_eq_true_eq] at hp
      intro c hc
      rcases List.mem_cons.mp hc with h1 | h2
      · exact List.mem_cons.mpr (Or.inl (h1.trans hp.1))
      · exact List.mem_cons.mpr (Or.inr (ih hp.2 c h2))

theorem mem_of_strIncludes {n h : Str} (hi : strIncludes n h = true) :
    ∀ c ∈ n, c ∈ h := by
  induction h with
  | nil =>
    simp only [strIncludes, List.isEmpty_iff] at hi
    subst hi
    intro c hc; exact absurd hc (List.not_mem_nil c)
  | cons b bs ih =>
    simp only [strIncludes, Bool.or_eq_true] at hi
    intro c hc
    rcases hi with h1 | h2
    · exact mem_of_isPrefixOfL h1 c hc
    · exact List.mem_cons.mpr (Or.inr (ih h2 c hc))

theorem strIncludes_eq_false_of_not_mem {n h : Str} {c : Char} (hc : c ∈ n)
    (hh : c ∉ h) : strIncludes n h = false := by
  cases hi : strIncludes n h with
  | false => rfl
  | true => exact absurd (mem_of_strIncludes hi c hc) hh

theorem isPrefixOfL_append_self (n t : Str) : isPrefixOfL n (n ++ t) = true := by
  induction n with
  | nil => rfl
  | cons a as ih => simp [isPrefixOfL, ih]

theorem strIncludes_append_self (n t : Str) (hn : n ≠ []) :
    strIncludes n (n ++ t) = true := by
  cases n with
  | nil => exact absurd rfl hn
  | cons a as =>
    simp only [strIncludes, List.cons_append, Bool.or_eq_true]
    exact Or.inl (isPrefixOfL_append_self (a :: as) t)

theorem underscore_mem_of_append (a s : Str) : '_' ∈ a ++ '_' :: s := by
  exact List.mem_append.mpr (Or.inr (List.mem_cons_self _ _))

-- Decimal round trip: parsing the decimal rendering of `n` gives back `n`.

theorem charToDigit_digitChar {d : Nat} (hd : d < 10) :
    charToDigit? (digitChar d) = some d := by
  interval_cases d <;> decide

theorem isDigitB_digitChar {d : Nat} (hd : d < 10) : isDigitB (digitChar d) = true := by
  simp [isDigitB, charToDigit_digitChar hd]

theorem natToStr_all_digits (n : Nat) : ∀ c ∈ natToStr n, isDigitB c = true := by
  intro c hc
  unfold natToStr at hc
  split at hc
  · simp only [List.mem_singleton] at hc
    subst hc
    decide
  · simp only [List.mem_map, List.mem_reverse] at hc
    obtain ⟨d, hd, rfl⟩ := hc
    exact isDigitB_digitChar (Nat.digits_lt_base (by norm_num) hd)

theorem underscore_not_mem_natToStr (n : Nat) : '_' ∉ natToStr n := by
  intro h
  have := natToStr_all_digits n '_' h
  simp [isDigitB, charToDigit?] at this

theorem leadingDigits_map_digitChar (ds : List Nat) (hds : ∀ d ∈ ds, d < 10) :
    leadingDigits (ds.map digitChar) = ds := by
  induction ds with
  | nil => rfl
  | cons d t ih =>
    simp only [List.map_cons, leadingDigits]
    rw [charToDigit_digitChar (hds d (List.mem_cons_self d t))]
    rw [ih (fun x hx => hds x (List.mem_cons.mpr (Or.inr hx)))]

theorem digitsVal_reverse_eq_ofDigits (l : List Nat) :
    digitsVal l.reverse = Nat.ofDigits 10 l := by
  induction l with
  | nil => rfl
  | cons d t ih =>
    simp only [List.reverse_cons, digitsVal, List.foldl_append, List.foldl_cons,
      List.foldl_nil, Nat.ofDigits_cons]
    simp only [digitsVal] at ih
    rw [ih]
    ring

theorem parseIntJS_natToStr (n : Nat) : parseIntJS (some (natToStr n)) = some n := by
  by_cases h0 : n = 0
  · subst h0; decide
  · have hd : ∀ d ∈ (Nat.digits 10 n).reverse, d < 10 := by
      intro d hd
      exact Nat.digits_lt_base (by norm_num) (List.mem_reverse.mp hd)
    have h1 : natToStr n = (Nat.digits 10 n).reverse.map digitChar := by
      unfold natToStr
      rw [if_neg h0]
    have h2 : leadingDigits (natToStr n) = (Nat.digits 10 n).reverse := by
      rw [h1]
      exact leadingDigits_map_digitChar _ hd
    have h3 : digitsVal (Nat.digits 10 n).reverse = n := by
      rw [digitsVal_reverse_eq_ofDigits, Nat.ofDigits_digits]
    have hne : (Nat.digits 10 n).reverse ≠ [] := by
      simp only [ne_eq, List.reverse_eq_nil_iff]
      exact Nat.digits_ne_nil_iff_ne_zero.mpr h0
    show (match leadingDigits (natToStr n) with
      | [] => none
      | ds => some (digitsVal ds)) = some n
    rw [h2]
    cases hrev : (Nat.digits 10 n).reverse with
    | nil => exact absurd hrev hne
    | cons a r =>
      show some (digitsVal (a :: r)) = some n
      rw [← hrev, h3]

-- The magic tokens and digit tails: `"listfieldidx_"` never occurs inside a
-- TextList row suffix `"listfieldsingleidx_" ++ digits`.

theorem strIncludes_lfi_digits (ds : Str) (hds : ∀ c ∈ ds, isDigitB c = true) :
    strIncludes lfiTok ds = false := by
  induction ds with
  | nil => rfl
  | cons c t ih =>
    have hc : isDigitB c = true := hds c (List.mem_cons_self c t)
    have hl : decide ('l' = c) = false := by
      apply decide_eq_false
      intro h
      rw [← h] at hc
      simp [isDigitB, charToDigit?] at hc
    have hpre : isPrefixOfL lfiTok (c :: t) = false := by
      have hu : isPrefixOfL lfiTok (c :: t) =
          (decide ('l' = c) && isPrefixOfL (("istfieldidx_").data) t) := rfl
      rw [hu, hl]
      rfl
    show (isPrefixOfL lfiTok (c :: t) || strIncludes lfiTok t) = false
    rw [hpre]
    simp only [Bool.false_or]
    exact ih (fun x hx => hds x (List.mem_cons.mpr (Or.inr hx)))

theorem strIncludes_lfi_lfsi_digits (ds : Str) (hds : ∀ c ∈ ds, isDigitB c = true) :
    strIncludes lfiTok (lfsiTok ++ ds) = false := by
  have step : strIncludes lfiTok (lfsiTok ++ ds) = strIncludes lfiTok ds := rfl
  rw [step]
  exact strIncludes_lfi_digits ds hds

/-!
The field-name codec.

The encoder is spread over the render code of `EditForm`:
plain fields use `name={editEntry.attribute}`; composite subfields use
`name={editEntry.attribute + "_" + subfield}` (Address, Article, Showcase);
TextList rows use `attribute + "_listfieldsingleidx_" + i`; DoubleTextList
rows use `attribute + "_listfieldidx_" + i + "_" + pairedIndex`.

The decoder is the splitting logic at the top of `handleSubmit`
(`EditForm.tsx` lines 295-333): a name is first matched verbatim against the
declared attribute set (`updateTargets`); otherwise, if it contains `"_"` and
`name.split("_")[0]` is a declared attribute, the first token becomes the
attribute and `name.split("_").slice(1).join("_")` the suffix, which is then
probed for the literal tokens `"listfieldidx_"` / `"listfieldsingleidx_"`.
-/

theorem strIncludes_singleton_of_mem {c : Char} {h : Str} (hm : c ∈ h) :
    strIncludes [c] h = true := by
  induction h with
  | nil => exact absurd hm (List.not_mem_nil c)
  | cons b bs ih =>
    show (isPrefixOfL [c] (b :: bs) || strIncludes [c] bs) = true
    rcases List.mem_cons.mp hm with h1 | h2
    · subst h1
      have hp : isPrefixOfL [c] (c :: bs) = true := by
        show (decide (c = c) && isPrefixOfL [] bs) = true
        simp [isPrefixOfL]
      rw [hp]
      rfl
    · rw [ih h2]
      simp

theorem headTok_append (a s : Str) (h : '_' ∉ a) : headTok (a ++ '_' :: s) = a := by
  show (splitOnC '_' (a ++ '_' :: s)).headI = a
  rw [splitOnC_append_cons _ _ _ h]
  rfl

theorem tailTok_append (a s : Str) (h : '_' ∉ a) : tailTok (a ++ '_' :: s) = s := by
  show joinC '_' ((splitOnC '_' (a ++ '_' :: s)).drop 1) = s
  rw [splitOnC_append_cons _ _ _ h]
  simp only [List.drop_succ_cons, List.drop_zero]
  exact joinC_splitOnC '_' s

theorem splitU_lfsi_digits (i : Nat) :
    splitU (lfsiTok ++ natToStr i) = [("listfieldsingleidx").data, natToStr i] := by
  have e : lfsiTok ++ natToStr i = ("listfieldsingleidx").data ++ '_' :: natToStr i := rfl
  rw [e]
  show splitOnC '_' _ = _
  rw [splitOnC_append_cons _ _ _ (by decide)]
  rw [splitOnC_no_sep _ _ (underscore_not_mem_natToStr i)]

theorem splitU_lfi_digits (i p : Nat) :
    splitU (lfiTok ++ natToStr i ++ '_' :: natToStr p)
      = [("listfieldidx").data, natToStr i, natToStr p] := by
  have e : lfiTok ++ natToStr i ++ '_' :: natToStr p
      = ("listfieldidx").data ++ '_' :: (natToStr i ++ '_' :: natToStr p) := by
    have e0 : lfiTok = ("listfieldidx").data ++ ['_'] := rfl
    rw [e0]
    simp [List.append_assoc]
  rw [e]
  show splitOnC '_' _ = _
  rw [splitOnC_append_cons _ _ _ (by decide)]
  rw [splitOnC_append_cons _ _ _ (underscore_not_mem_natToStr i)]
  rw [splitOnC_no_sep _ _ (underscore_not_mem_natToStr p)]

/-- The round trip: decoding a name produced by the encoder recovers the
original path, provided the declared attribute set is free of underscores in
attribute tokens and the path's subfield token (when present) is too. -/
theorem decodeName_encodePath (known : List Str) (p : EncPath)
    (hmem : p.attrOf ∈ known) (hknown : ∀ b ∈ known, '_' ∉ b)
    (hsub : p.subNoUnderscore) :
    decodeName known (encodePath p) = some (pathToDecoded p) := by
  have ha : '_' ∉ p.attrOf := hknown _ hmem
  cases p with
  | attr a =>
    show decodeName known a = some (.whole a)
    unfold decodeName
    rw [if_pos (show a ∈ known from hmem)]
  | sub a s =>
    have ha' : '_' ∉ a := ha
    have hnotin : (a ++ '_' :: s) ∉ known := fun h =>
      hknown _ h (underscore_mem_of_append a s)
    show decodeName known (a ++ '_' :: s) = some (.subf a s)
    unfold decodeName
    rw [if_neg hnotin]
    rw [if_pos ⟨strIncludes_singleton_of_mem (underscore_mem_of_append a s),
      by rw [headTok_append a s ha']; exact hmem⟩]
    rw [tailTok_append a s ha', headTok_append a s ha']
    have h1 : strIncludes lfiTok s = false :=
      strIncludes_eq_false_of_not_mem (by decide : '_' ∈ lfiTok) hsub
    have h2 : strIncludes lfsiTok s = false :=
      strIncludes_eq_false_of_not_mem (by decide : '_' ∈ lfsiTok) hsub
    rw [h1, h2]
    simp
  | listSingle a i =>
    have ha' : '_' ∉ a := ha
    have hnotin : (a ++ '_' :: (lfsiTok ++ natToStr i)) ∉ known := fun h =>
      hknown _ h (underscore_mem_of_append a _)
    show decodeName known (a ++ '_' :: (lfsiTok ++ natToStr i))
      = some (.listSingle a (some i))
    unfold decodeName
    rw [if_neg hnotin]
    rw [if_pos ⟨strIncludes_singleton_of_mem (underscore_mem_of_append a _),
      by rw [headTok_append _ _ ha']; exact hmem⟩]
    rw [tailTok_append _ _ ha', headTok_append _ _ ha']
    rw [strIncludes_lfi_lfsi_digits _ (natToStr_all_digits i)]
    rw [strIncludes_append_self lfsiTok (natToStr i) (by decide)]
    rw [splitU_lfsi_digits i]
    simp [parseIntJS_natToStr]
  | listPair a i q =>
    have ha' : '_' ∉ a := ha
    have hnotin : (a ++ '_' :: (lfiTok ++ natToStr i ++ '_' :: natToStr q)) ∉ known :=
      fun h => hknown _ h (underscore_mem_of_append a _)
    show decodeName known (a ++ '_' :: (lfiTok ++ natToStr i ++ '_' :: natToStr q))
      = some (.listPair a (some i) (natToStr q))
    unfold decodeName
    rw [if_neg hnotin]
    rw [if_pos ⟨strIncludes_singleton_of_mem (underscore_mem_of_append a _),
      by rw [headTok_append _ _ ha']; exact hmem⟩]
    rw [tailTok_append _ _ ha', headTok_append _ _ ha']
    have hassoc : lfiTok ++ natToStr i ++ '_' :: natToStr q
        = lfiTok ++ (natToStr i ++ '_' :: natToStr q) := by
      simp [List.append_assoc]
    have hincl : strIncludes lfiTok (lfiTok ++ natToStr i ++ '_' :: natToStr q) = true := by
      rw [hassoc]
      exact strIncludes_append_self lfiTok _ (by decide)
    rw [hincl]
    rw [splitU_lfi_digits i q]
    simp [parseIntJS_natToStr, joinU, joinC]

/-!
The entity model.

JS objects (and the arrays the code builds with `[]` and then addresses by
string keys, e.g. via `Object.entries` / `Object.fromEntries`) are modelled
uniformly as insertion-ordered association lists with string keys.  `none`
on a lookup models `undefined`.
-/

-- Object and submit-loop lemmas.

theorem lookupObj_setKey_self (o : Obj) (k : Str) (v : JSVal) :
    lookupObj (setKey o k v) k = some v := by
  induction o with
  | nil => simp [setKey, lookupObj]
  | cons p t ih =>
    obtain ⟨k2, v2⟩ := p
    simp only [setKey]
    split
    · simp [lookupObj]
    · simp only [lookupObj]
      rename_i hne
      rw [if_neg hne]
      exact ih

theorem lookupObj_setKey_ne (o : Obj) (k a : Str) (v : JSVal) (h : k ≠ a) :
    lookupObj (setKey o k v) a = lookupObj o a := by
  induction o with
  | nil => simp [setKey, lookupObj, h]
  | cons p t ih =>
    obtain ⟨k2, v2⟩ := p
    simp only [setKey]
    split
    · rename_i hk
      subst hk
      simp only [lookupObj]
      rw [if_neg h, if_neg h]
    · simp only [lookupObj]
      split
      · rfl
      · exact ih

theorem articleStep_ok {e : EditEntry} {ent ent2 : Obj}
    (h : articleStep e ent = .ok ent2) :
    ent2 = ent ∨ ent2 = setKey ent e.attr (.vObj []) := by
  unfold articleStep at h
  split at h
  · split at h
    · exact absurd h (by simp)
    · split at h
      · exact absurd h (by simp)
      · split at h
        · injection h with h2
          exact Or.inr h2.symm
        · injection h with h2
          exact Or.inl h2.symm
  · injection h with h2
    exact Or.inl h2.symm

theorem showcaseStep_ok {e : EditEntry} {ent ent2 : Obj}
    (h : showcaseStep e ent = .ok ent2) : ent2 = ent := by
  unfold showcaseStep at h
  split at h
  · split at h
    · exact EntryStep.noConfusion h
    · split at h
      · exact EntryStep.noConfusion h
      · split at h <;> split at h <;>
          first
            | exact EntryStep.noConfusion h
            | (injection h with h2; exact h2.symm)
  · injection h with h2
    exact h2.symm

theorem processEntryTail_ok {ctx : SubmitCtx} {e : EditEntry} {ent2 fin : Obj}
    (h : processEntryTail ctx e ent2 = .ok fin) : fin = pruneStep ctx e ent2 := by
  unfold processEntryTail at h
  split at h
  · exact absurd h (by simp)
  · exact showcaseStep_ok h

theorem pruneStep_lookup_ne (ctx : SubmitCtx) (e : EditEntry) (ent : Obj)
    (a : Str) (hne : e.attr ≠ a) :
    lookupObj (pruneStep ctx e ent) a = lookupObj ent a := by
  unfold pruneStep
  split
  · split
    · split
      · rw [lookupObj_setKey_ne _ _ _ _ hne]
      · rw [lookupObj_setKey_ne _ _ _ _ hne, lookupObj_setKey_ne _ _ _ _ hne]
    · split
      · rfl
      · rw [lookupObj_setKey_ne _ _ _ _ hne]
  · rfl

theorem processEntry_preserves (ctx : SubmitCtx) (e : EditEntry) (ent ent2 : Obj)
    (a : Str) (hne : e.attr ≠ a)
    (h : processEntry ctx e ent = .ok ent2) :
    lookupObj ent2 a = lookupObj ent a := by
  unfold processEntry at h
  split at h
  · exact absurd h (by simp)
  · rcases hart : articleStep e (if e.type = EditEntryType.Checkbox then
        setKey ent e.attr (.vBool ctx.checkboxFieldValue) else ent) with ent3 | m | _
    all_goals rw [hart] at h
    · have htail : processEntryTail ctx e ent3 = .ok ent2 := h
      have hbase : lookupObj (if e.type = EditEntryType.Checkbox then
          setKey ent e.attr (.vBool ctx.checkboxFieldValue) else ent) a
          = lookupObj ent a := by
        split
        · exact lookupObj_setKey_ne _ _ _ _ hne
        · rfl
      have h3 : lookupObj ent3 a = lookupObj ent a := by
        rcases articleStep_ok hart with h4 | h4
        · rw [h4, hbase]
        · rw [h4, lookupObj_setKey_ne _ _ _ _ hne, hbase]
      rw [processEntryTail_ok htail, pruneStep_lookup_ne ctx e ent3 a hne, h3]
    · have h2 : EntryStep.error m = EntryStep.ok ent2 := h
      exact absurd h2 (by simp)
    · have h2 : EntryStep.thrown = EntryStep.ok ent2 := h
      exact absurd h2 (by simp)

theorem processEntry_checkbox (ctx : SubmitCtx) (e : EditEntry) (ent ent2 : Obj)
    (htype : e.type = EditEntryType.Checkbox)
    (hsz : (listSizeAt ctx e.attr).getD 0 = 0)
    (h : processEntry ctx e ent = .ok ent2) :
    lookupObj ent2 e.attr = some (.vBool ctx.checkboxFieldValue) := by
  unfold processEntry at h
  split at h
  · exact absurd h (by simp)
  · have hart : articleStep e (setKey ent e.attr (.vBool ctx.checkboxFieldValue))
        = .ok (setKey ent e.attr (.vBool ctx.checkboxFieldValue)) := by
      unfold articleStep
      rw [if_neg (by rw [htype]; intro hc; exact EditEntryType.noConfusion hc)]
    rw [hart] at h
    have htail : processEntryTail ctx e
        (setKey ent e.attr (.vBool ctx.checkboxFieldValue)) = .ok ent2 := h
    have hprune : pruneStep ctx e (setKey ent e.attr (.vBool ctx.checkboxFieldValue))
        = setKey ent e.attr (.vBool ctx.checkboxFieldValue) := by
      unfold pruneStep
      rw [hsz]
      simp
    rw [processEntryTail_ok htail, hprune, lookupObj_setKey_self]

theorem processLoop_cons_success (ctx : SubmitCtx) (x : EditEntry)
    (rest : List EditEntry) (ent fin : Obj)
    (h : processLoop ctx (x :: rest) ent = .success fin) :
    ∃ st, processEntry ctx x ent = .ok st ∧ processLoop ctx rest st = .success fin := by
  rcases he : processEntry ctx x ent with st | m | _
  · refine ⟨st, rfl, ?_⟩
    unfold processLoop at h
    rw [he] at h
    exact h
  · unfold processLoop at h
    rw [he] at h
    exact absurd h (by simp)
  · unfold processLoop at h
    rw [he] at h
    exact absurd h (by simp)

theorem processLoop_append_success (ctx : SubmitCtx) (l1 l2 : List EditEntry)
    (ent fin : Obj)
    (h : processLoop ctx (l1 ++ l2) ent = .success fin) :
    ∃ mid, processLoop ctx l1 ent = .success mid
      ∧ processLoop ctx l2 mid = .success fin := by
  induction l1 generalizing ent with
  | nil => exact ⟨ent, rfl, h⟩
  | cons x xs ih =>
    rw [List.cons_append] at h
    obtain ⟨st, hx, hrest⟩ := processLoop_cons_success ctx x (xs ++ l2) ent fin h
    obtain ⟨mid, h1, h2⟩ := ih st hrest
    refine ⟨mid, ?_, h2⟩
    unfold processLoop
    rw [hx]
    exact h1

theorem processLoop_preserves (ctx : SubmitCtx) (l : List EditEntry)
    (ent fin : Obj) (a : Str)
    (hne : ∀ e ∈ l, e.attr ≠ a)
    (h : processLoop ctx l ent = .success fin) :
    lookupObj fin a = lookupObj ent a := by
  induction l generalizing ent with
  | nil =>
    unfold processLoop at h
    injection h with h2
    rw [h2]
  | cons x xs ih =>
    obtain ⟨st, hx, hrest⟩ := processLoop_cons_success ctx x xs ent fin h
    rw [ih st (fun e he => hne e (List.mem_cons.mpr (Or.inr he))) hrest]
    exact processEntry_preserves ctx x ent st a (hne x (List.mem_cons_self x xs)) hx

-- The claims.

/-- C5: for every path (attribute, optional subfield, optional list index,
optional paired sub-index) in which the attribute and subfield tokens
contain no underscores, decoding the flat name produced by the encoder
yields back exactly the original path.  (The decoder consults the declared
attribute set, so the no-underscore condition is imposed on all attribute
tokens of that set.) -/
theorem c5_roundtrip (known : List Str) (p : EncPath)
    (hmem : p.attrOf ∈ known) (hknown : ∀ b ∈ known, '_' ∉ b)
    (hsub : p.subNoUnderscore) :
    decodeName known (encodePath p) = some (pathToDecoded p) :=
  decodeName_encodePath known p hmem hknown hsub

theorem c5_roundtrip_witness :
    decodeName [("faq").data]
        (encodePath (.listPair (("faq").data) 3 1))
      = some (pathToDecoded (.listPair (("faq").data) 3 1)) :=
  c5_roundtrip [("faq").data] (.listPair (("faq").data) 3 1)
    (by decide) (by decide) trivial

/-- C1 counterexample: with declared attribute `"button_link"` (which
contains an underscore), the flat name `"button_link_city"` does not decode
to attribute `"button_link"` with suffix `"city"` — it decodes to nothing at
all, because `handleSubmit` matches only the whole name or the fixed token
`name.split("_")[0]` (here `"button"`) against the attribute set. -/
theorem c1_counterexample :
    decodeName [("button_link").data] (("button_link_city").data) = none
    ∧ decodeName [("button_link").data] (("button_link_city").data)
      ≠ some (.subf (("button_link").data) (("city").data)) := by
  constructor
  · decide
  · decide

/-- C1 amended: decoding does not split at the longest declared-attribute
prefix; any successfully decoded path's attribute is either the whole name
(verbatim member of the declared set) or exactly `name.split("_")[0]`, the
token before the first underscore. -/
theorem c1_amended (known : List Str) (name : Str) (p : FieldPath)
    (h : decodeName known name = some p) :
    p.attrOf = name ∨ p.attrOf = headTok name := by
  unfold decodeName at h
  by_cases h1 : name ∈ known
  · rw [if_pos h1] at h
    injection h with h2
    rw [← h2]
    exact Or.inl rfl
  · rw [if_neg h1] at h
    by_cases h2 : strIncludes ['_'] name = true ∧ headTok name ∈ known
    · rw [if_pos h2] at h
      by_cases h3 : strIncludes lfiTok (tailTok name) = true
      · rw [if_pos h3] at h
        injection h with h4
        rw [← h4]
        exact Or.inr rfl
      · rw [if_neg h3] at h
        by_cases h4 : strIncludes lfsiTok (tailTok name) = true
        · rw [if_pos h4] at h
          injection h with h5
          rw [← h5]
          exact Or.inr rfl
        · rw [if_neg h4] at h
          injection h with h5
          rw [← h5]
          exact Or.inr rfl
    · rw [if_neg h2] at h
      exact Option.noConfusion h

theorem c1_amended_witness :
    (FieldPath.subf (("a").data) (("city").data)).attrOf = (("a_city").data)
    ∨ (FieldPath.subf (("a").data) (("city").data)).attrOf
      = headTok (("a_city").data) :=
  c1_amended [("a").data] (("a_city").data)
    (.subf (("a").data) (("city").data)) (by decide)

/-- C2 (evaluating the code at the failing input): one TextList descriptor
`"xs"` with ListSize 1 and one submitted row `"hello"` at index 0.  The raw
pass stores the scalar row, then list pruning drops it — the final entity
maps `"xs"` to the empty object — because the pruning filter demands an
object with both paired keys `"0"` and `"1"` from every entry of every
list-typed descriptor, not only for DoubleTextList. -/
theorem c2_textlist_row_dropped :
    (List.foldl
        (applyRawInput ⟨[("xs").data], [1], false⟩)
        []
        [⟨("xs_listfieldsingleidx_0").data, ("hello").data, false⟩])
      = [(("xs").data, .vObj [(("0").data, .vStr (("hello").data))])]
    ∧ handleSubmit
        [⟨("xs").data, ("XS").data, .TextList, false, none, none, none⟩]
        [1] false
        [⟨("xs_listfieldsingleidx_0").data, ("hello").data, false⟩]
        [] []
      = .success [(("xs").data, .vObj [])] :=
  ⟨rfl, rfl⟩

/-- C3 counterexample: the upload merge does not reuse the raw pass's
path-write logic.  With TextList attribute `"a"` (row 0 currently
`"x"`), merging the upload result `("a_listfieldsingleidx_0", "p")` does not
overwrite row 0 (the path the codec decodes this name to): the raw-pass
write puts `"p"` at index `"0"`, while the merge pass stores it under the
literal subfield key `"listfieldsingleidx_0"`, leaving row 0 at `"x"`. -/
theorem c3_counterexample :
    applyUploadPair ⟨[("a").data], [1], false⟩
        [(("a").data, .vObj [(("0").data, .vStr (("x").data))])]
        ((("a_listfieldsingleidx_0").data), ("p").data)
      ≠ applyRawInput ⟨[("a").data], [1], false⟩
        [(("a").data, .vObj [(("0").data, .vStr (("x").data))])]
        ⟨("a_listfieldsingleidx_0").data, ("p").data, false⟩ := by
  intro h
  have h1 : lookup2 (applyUploadPair ⟨[("a").data], [1], false⟩
      [(("a").data, .vObj [(("0").data, .vStr (("x").data))])]
      ((("a_listfieldsingleidx_0").data), ("p").data)) (("a").data) (("0").data)
      = some (.vStr (("x").data)) := rfl
  rw [h] at h1
  have h2 : lookup2 (applyRawInput ⟨[("a").data], [1], false⟩
      [(("a").data, .vObj [(("0").data, .vStr (("x").data))])]
      ⟨("a_listfieldsingleidx_0").data, ("p").data, false⟩) (("a").data) (("0").data)
      = some (.vStr (("p").data)) := rfl
  rw [h2] at h1
  injection h1 with h3
  injection h3 with h4
  exact absurd (List.head_eq_of_cons_eq h4) (by decide)

/-- C3 amended: the merge pass shares only the attribute-matching step with
the raw pass (whole name verbatim, else the token before the first
underscore) and always writes the stored path as a plain (sub)field write;
on names that are a bare attribute, or a subfield name whose suffix carries
no list-index token, whose value has no newline and whose suffix is not
`content`, it coincides with the raw-pass write; upload results are applied
after all raw form values (see `handleSubmit`). -/
theorem c3_amended (ctx : SubmitCtx) (ent : Obj) (n v : Str)
    (hne : n ≠ [])
    (h : n ∈ ctx.attrs
      ∨ (strIncludes ['_'] n = true ∧ headTok n ∈ ctx.attrs
        ∧ strIncludes lfiTok (tailTok n) = false
        ∧ strIncludes lfsiTok (tailTok n) = false
        ∧ strIncludes ['\n'] v = false
        ∧ tailTok n ≠ ("content").data)) :
    applyUploadPair ctx ent (n, v) = applyRawInput ctx ent ⟨n, v, false⟩ := by
  have hemp : n.isEmpty = false := by
    cases n with
    | nil => exact absurd rfl hne
    | cons c t => rfl
  by_cases hm : n ∈ ctx.attrs
  · unfold applyUploadPair applyRawInput
    rw [if_pos hm]
    simp only [hemp]
    rw [if_pos hm]
    rfl
  · rcases h with h | ⟨h1, h2, h3, h4, h5, h6⟩
    · exact absurd h hm
    · have hand : strIncludes ['_'] n = true ∧ headTok n ∈ ctx.attrs := ⟨h1, h2⟩
      have hcontent : (strIncludes ['\n'] v
          || (decide (tailTok n = ("content").data) && !v.isEmpty)) = false := by
        rw [h5, decide_eq_false h6]
        rfl
      unfold applyUploadPair applyRawInput
      rw [if_neg hm]
      rw [if_pos hand]
      simp only [hemp]
      rw [if_neg hm]
      rw [if_pos hand]
      rw [h3, h4, hcontent]
      simp only [Bool.false_eq_true, if_false]

theorem c3_amended_witness :
    applyUploadPair ⟨[("avatar").data], [], false⟩ [] ((("avatar").data), ("p").data)
      = applyRawInput ⟨[("avatar").data], [], false⟩ []
        ⟨("avatar").data, ("p").data, false⟩ :=
  c3_amended ⟨[("avatar").data], [], false⟩ [] (("avatar").data) (("p").data)
    (by decide) (Or.inl (by decide))

/-- C4 counterexample: a descriptor with `condition = false` still
participates in submission.  A required Text field `"a"` whose `condition`
is `false` aborts the submission with the required-field message when its
entity value is absent, and lets it succeed when the value is present — so
the required check runs and the outcome depends on that descriptor's entity
value. -/
theorem c4_counterexample :
    handleSubmit [⟨("a").data, ("A").data, .Text, true, none, none, some false⟩]
        [0] false [] [] []
      = .error (requiredSubmitMsg (("A").data))
    ∧ handleSubmit [⟨("a").data, ("A").data, .Text, true, none, none, some false⟩]
        [0] false [] [] [(("a").data, .vStr (("x").data))]
      = .success [(("a").data, .vStr (("x").data))] :=
  ⟨rfl, rfl⟩

/-- C4 amended: `condition` gates rendering only.  The submission pipeline
never reads it: replacing any descriptor's `condition` by any other value
leaves the whole submission outcome unchanged (the required check,
validations, composite checks and list pruning all still run for the
descriptor). -/
theorem c4_amended (pre post : List EditEntry) (e : EditEntry) (c : Option Bool)
    (lfs : List Nat) (cbv : Bool) (inputs : List FormInput)
    (uploads : List (Str × Str)) (ent0 : Obj) :
    handleSubmit (pre ++ {e with condition := c} :: post) lfs cbv inputs uploads ent0
      = handleSubmit (pre ++ e :: post) lfs cbv inputs uploads ent0 := by
  obtain ⟨a1, a2, a3, a4, a5, a6, a7⟩ := e
  have hattrs : updateTargets (pre ++ {EditEntry.mk a1 a2 a3 a4 a5 a6 a7 with
      condition := c} :: post) = updateTargets (pre ++ EditEntry.mk a1 a2 a3 a4 a5 a6 a7 :: post) := by
    simp [updateTargets]
  unfold handleSubmit
  rw [hattrs]
  have key : ∀ (l : List EditEntry) (ctx : SubmitCtx) (ent : Obj),
      processLoop ctx (l ++ {EditEntry.mk a1 a2 a3 a4 a5 a6 a7 with
          condition := c} :: post) ent
        = processLoop ctx (l ++ EditEntry.mk a1 a2 a3 a4 a5 a6 a7 :: post) ent := by
    intro l
    induction l with
    | nil =>
      intro ctx ent
      rfl
    | cons x xs ih =>
      intro ctx ent
      simp only [List.cons_append, processLoop]
      rcases hx : processEntry ctx x ent with ent2 | m | _ <;> simp only [hx]
      exact ih ctx ent2
  exact key pre _ _

/-- C6: validation boundaries are exact.  `TextLengthBelow30` passes a
string of length exactly 30, fails one of length 31, and an absent value
always passes; `Price` fails for `"10000"`, passes for `"9999"`, and fails
for `"0"`. -/
theorem c6_validation_boundaries (name : Str) :
    validateValue (some (.vStr (List.replicate 30 'a'))) name .TextLengthBelow30 = none
    ∧ validateValue (some (.vStr (List.replicate 31 'a'))) name .TextLengthBelow30
      = some (lengthMsg name 30)
    ∧ validateValue none name .TextLengthBelow30 = none
    ∧ validateValue (some (.vStr (("10000").data))) name .Price
      = some (priceRangeMsg name)
    ∧ validateValue (some (.vStr (("9999").data))) name .Price = none
    ∧ validateValue (some (.vStr (("0").data))) name .Price
      = some (priceRangeMsg name) :=
  ⟨rfl, rfl, rfl, rfl, rfl, rfl⟩

/-- C7: validation is fail-fast.  (1) A descriptor's declared rules are
evaluated in declaration order and evaluation stops at the first failing
rule: the validations loop returns exactly `List.findSome?` of the rule
results.  (2) The whole submission aborts at the first entry whose
processing fails, with exactly that entry's single failure message,
whatever descriptors follow.  (3) An aborted submission never reaches the
success handler. -/
theorem c7_fail_fast :
    (∀ (value : Option JSVal) (name : Str) (rules : List ValidationType),
      runValidations value name rules = rules.findSome? (validateValue value name))
    ∧ (∀ (ctx : SubmitCtx) (e : EditEntry) (rest : List EditEntry) (ent : Obj) (m : Str),
        processEntry ctx e ent = .error m →
        processLoop ctx (e :: rest) ent = .error m)
    ∧ (∀ (ctx : SubmitCtx) (entries : List EditEntry) (ent : Obj) (m : Str) (fin : Obj),
        processLoop ctx entries ent = .error m →
        processLoop ctx entries ent ≠ .success fin) := by
  refine ⟨?_, ?_, ?_⟩
  · intro v n rules
    induction rules with
    | nil => rfl
    | cons r rs ih =>
      show (match validateValue v n r with
        | some m => some m
        | none => runValidations v n rs) = _
      rcases hr : validateValue v n r with _ | m
      · rw [List.findSome?_cons_of_isNone _ (by rw [hr]; rfl)]
        exact ih
      · rw [List.findSome?_cons_of_isSome _ (by rw [hr]; rfl)]
        simp [hr]
  · intro ctx e rest ent m h
    show (match processEntry ctx e ent with
      | .error m => SubmitResult.error m
      | .thrown => SubmitResult.thrown
      | .ok ent2 => processLoop ctx rest ent2) = .error m
    rw [h]
  · intro ctx entries ent m fin h
    rw [h]
    intro hc
    exact SubmitResult.noConfusion hc

theorem c7_fail_fast_witness :
    runValidations none (("N").data) [.RequiredField, .CheckboxChecked]
      = [ValidationType.RequiredField, .CheckboxChecked].findSome?
          (validateValue none (("N").data))
    ∧ processLoop ⟨[("a").data], [], false⟩
        [⟨("a").data, ("A").data, .Text, true, none, none, none⟩] []
      = .error (requiredSubmitMsg (("A").data)) :=
  ⟨c7_fail_fast.1 none (("N").data) [.RequiredField, .CheckboxChecked],
   c7_fail_fast.2.1 ⟨[("a").data], [], false⟩
     ⟨("a").data, ("A").data, .Text, true, none, none, none⟩ [] [] _ rfl⟩

/-- C8 (evaluating the code at the failing input): when the caller-supplied
success handler throws during its invocation, the exception is NOT caught by
the submission code — the `try/catch` guards only the synchronous
`setTimeout` registration, and the handler runs later inside the deferred
callback, outside the `try`.  The exception escapes uncaught, the loading
indicator is never cleared, the `catch` clause (`hideLoading` + logging)
never runs, and no message is surfaced. -/
theorem c8_handler_exception_uncaught :
    (submitTail true).2 = true
    ∧ TailEvent.loadingCleared ∉ (submitTail true).1
    ∧ TailEvent.exceptionLogged ∉ (submitTail true).1
    ∧ TailEvent.successToasted ∉ (submitTail true).1
    ∧ (submitTail false).2 = false := by
  refine ⟨rfl, ?_, ?_, ?_, rfl⟩ <;> decide

/-- C9: a single tracked boolean backs all checkboxes.  In any submission
that reaches the success handler, every Checkbox-typed descriptor's
attribute holds the same one boolean — the shared `checkboxFieldValue` — in
the final entity; in particular two Checkbox fields can never hold
different values after submission.  (Hypotheses: attributes are unique per
form, and the ListSize slots of Checkbox descriptors are 0, which is how
`listFieldSize` is initialised for every non-list type.) -/
theorem c9_checkbox_single_state (entries : List EditEntry) (lfs : List Nat)
    (cbv : Bool) (inputs : List FormInput) (uploads : List (Str × Str))
    (ent0 fin : Obj)
    (hnodup : (updateTargets entries).Nodup)
    (hsz : ∀ e ∈ entries, e.type = EditEntryType.Checkbox →
      (listSizeAt ⟨updateTargets entries, lfs, cbv⟩ e.attr).getD 0 = 0)
    (hsub : handleSubmit entries lfs cbv inputs uploads ent0 = .success fin) :
    ∀ e ∈ entries, e.type = EditEntryType.Checkbox →
      lookupObj fin e.attr = some (.vBool cbv) := by
  intro e he htype
  obtain ⟨pre, post, hsplit⟩ := List.append_of_mem he
  subst hsplit
  unfold handleSubmit at hsub
  obtain ⟨mid, hpre, hrest⟩ := processLoop_append_success
    ⟨updateTargets (pre ++ e :: post), lfs, cbv⟩ pre (e :: post) _ fin hsub
  obtain ⟨st, hx, hpost⟩ := processLoop_cons_success _ e post mid fin hrest
  have hcb : lookupObj st e.attr = some (.vBool cbv) :=
    processEntry_checkbox _ e mid st htype (hsz e he htype) hx
  have hmem : e.attr ∉ List.map EditEntry.attr post := by
    have h1 : (updateTargets (pre ++ e :: post)).Nodup := hnodup
    simp only [updateTargets, List.map_append, List.map_cons] at h1
    exact (List.nodup_cons.mp h1.of_append_right).1
  have hne : ∀ x ∈ post, x.attr ≠ e.attr := by
    intro x hxmem hcontra
    apply hmem
    rw [← hcontra]
    exact List.mem_map_of_mem EditEntry.attr hxmem
  rw [processLoop_preserves _ post st fin e.attr hne hpost]
  exact hcb

theorem c9_checkbox_witness :
    lookupObj [(("c1").data, JSVal.vBool true), (("c2").data, JSVal.vBool true)]
        (("c2").data) = some (.vBool true) :=
  c9_checkbox_single_state
    [⟨("c1").data, ("C1").data, .Checkbox, false, none, none, none⟩,
     ⟨("c2").data, ("C2").data, .Checkbox, false, none, none, none⟩]
    [0, 0] true [] []
    []
    [(("c1").data, JSVal.vBool true), (("c2").data, JSVal.vBool true)]
    (by decide) (by decide) rfl
    ⟨("c2").data, ("C2").data, .Checkbox, false, none, none, none⟩
    (by decide) rfl

/-- C10: for every descriptor with `isRequired = true`, the submission
aborts with the `Field is required` message whenever the merged entity
value at its attribute is falsy, before any of its declared validation
rules run and whatever its `validations` list contains.  Part one states
this for the loop reaching the descriptor in any entity state; part two
states it against the merged entity (raw form values then upload results)
when the descriptor is first. -/
theorem c10_required_field :
    (∀ (ctx : SubmitCtx) (e : EditEntry) (post : List EditEntry) (ent : Obj),
      e.isRequired = true → truthy (lookupObj ent e.attr) = false →
      processLoop ctx (e :: post) ent = .error (requiredSubmitMsg e.attributeName))
    ∧ (∀ (e : EditEntry) (post : List EditEntry) (lfs : List Nat) (cbv : Bool)
        (inputs : List FormInput) (uploads : List (Str × Str)) (ent0 : Obj),
      e.isRequired = true →
      truthy (lookupObj
        (uploads.foldl (applyUploadPair ⟨updateTargets (e :: post), lfs, cbv⟩)
          (inputs.foldl (applyRawInput ⟨updateTargets (e :: post), lfs, cbv⟩) ent0))
        e.attr) = false →
      handleSubmit (e :: post) lfs cbv inputs uploads ent0
        = .error (requiredSubmitMsg e.attributeName)) := by
  have part1 : ∀ (ctx : SubmitCtx) (e : EditEntry) (post : List EditEntry) (ent : Obj),
      e.isRequired = true → truthy (lookupObj ent e.attr) = false →
      processLoop ctx (e :: post) ent = .error (requiredSubmitMsg e.attributeName) := by
    intro ctx e post ent hreq hfalsy
    have hentry : processEntry ctx e ent = .error (requiredSubmitMsg e.attributeName) := by
      unfold processEntry
      rw [hreq, hfalsy]
      rfl
    show (match processEntry ctx e ent with
      | .error m => SubmitResult.error m
      | .thrown => SubmitResult.thrown
      | .ok ent2 => processLoop ctx post ent2) = _
    rw [hentry]
  refine ⟨part1, ?_⟩
  intro e post lfs cbv inputs uploads ent0 hreq hfalsy
  unfold handleSubmit
  exact part1 _ e post _ hreq hfalsy

theorem c10_required_field_witness :
    handleSubmit
        [⟨("a").data, ("A").data, .Text, true, some [.TextLengthBelow30], none, none⟩]
        [] false [] [] []
      = .error (requiredSubmitMsg (("A").data)) :=
  c10_required_field.2
    ⟨("a").data, ("A").data, .Text, true, some [.TextLengthBelow30], none, none⟩
    [] [] false [] [] [] rfl rfl
